import Mathlib

/-!
Verification of the bare-metal memory allocator in `sw/lib/src/memory.c`:
the heap cursor `_sbrk`, the bump-pointer arena allocator
(`arena_alloc`, `arena_push_align`, `arena_push`, `arena_push_zero`), and the
first-fit free-list allocator (`malloc`, `free`).

The target is a 32-bit RISC-V machine (the source asserts
`sizeof(struct free_slot) == sizeof(long long) == 8`, i.e. 4-byte pointers).
Addresses and `uint32_t` values are modelled as natural numbers below
`W = 2^32`; unsigned wrap-around is written `% W` exactly where the C types
make the arithmetic 32-bit.  The null pointer is the number `0`, as in the
source (`#define NULL 0x0`).
-/

namespace Frost

/-- The size of the 32-bit address space, `2^32`. -/
def W : Nat := 4294967296

/-- The C define `ALIGN(ptr, align) = (((ptr) + ((align) - 1)) & ~((align) - 1))`
on 32-bit values: the sum wraps modulo `W`, and for `1 ≤ align` the 32-bit
twos-complement value of `~(align - 1)` is `W - align`. -/
def ALIGN (x a : Nat) : Nat := ((x + (a - 1)) % W) &&& (W - a)

/-- The C define `ALIGN_PADDING(ptr, align) = ALIGN(ptr, align) - (ptr)`,
a 32-bit unsigned subtraction. -/
def ALIGN_PADDING (x a : Nat) : Nat := (ALIGN x a + (W - x % W)) % W

/-- The constant `DEFAULT_ALIGN = sizeof(long long) = 8`. -/
def DEFAULT_ALIGN : Nat := 8

/-- The cast `(int) n` of a `uint32_t` value `n < W` to the 32-bit
twos-complement `int`. -/
def toInt32 (n : Nat) : Int := if n < 2 ^ 31 then (n : Int) else (n : Int) - (W : Int)

/-- The heap cursor primitive `_sbrk(int incr)`.  `heapEnd` is the linker symbol `&_heap_end` and
`heap_mark` the current cursor; the result is the returned `char *`
(`0` = `NULL`) paired with the updated cursor.  Mirrors the source: reject
`incr <= 0`; compute `new_heap = heap_mark + incr` (32-bit pointer
arithmetic, hence `% W`); reject pointer wrap (`new_heap < heap_mark`) and
`new_heap > &_heap_end`; otherwise commit and return the previous cursor. -/
def _sbrk (heapEnd heap_mark : Nat) (incr : Int) : Nat × Nat :=
  if incr ≤ 0 then (0, heap_mark)
  else
    let new_heap := (heap_mark + incr.toNat) % W
    if new_heap < heap_mark then (0, heap_mark)
    else if new_heap > heapEnd then (0, heap_mark)
    else (heap_mark, new_heap)

/-- The C struct `arena_t { char *start; uint32_t pos; uint32_t capacity; }`.
`start = 0` is the null/failed marker. -/
structure arena_t where
  start : Nat
  pos : Nat
  capacity : Nat
deriving DecidableEq, Repr

/-- The arena constructor `arena_alloc(uint32_t size)`: one `_sbrk((int) size)` request; the arena
records the returned pointer (null on failure), `pos = 0` and
`capacity = size`.  Returns the arena and the updated heap cursor. -/
def arena_alloc (heapEnd heap_mark : Nat) (size : Nat) : arena_t × Nat :=
  let r := _sbrk heapEnd heap_mark (toInt32 size)
  (⟨r.1, 0, size⟩, r.2)

/-- The aligned candidate pointer of `arena_push_align`:
`p = ALIGN((uintptr_t)(arena->start + arena->pos), align)`. -/
def pushP (arena : arena_t) (align : Nat) : Nat :=
  ALIGN ((arena.start + arena.pos) % W) align

/-- The 32-bit difference `p - arena->start` used by `arena_push_align`. -/
def pushDiff (arena : arena_t) (align : Nat) : Nat :=
  (pushP arena align + (W - arena.start % W)) % W

/-- The candidate new position of `arena_push_align`:
`new_pos = (uint32_t)(p - arena->start) + size` in `uint32_t`. -/
def pushNewPos (arena : arena_t) (size align : Nat) : Nat :=
  (pushDiff arena align + size) % W

/-- The push `arena_push_align(arena_t *arena, uint32_t size, uint8_t align)`.
Returns the `char *` result (`0` = `NULL`) and the updated arena.  Mirrors
the source: reject a null arena start or `align == 0`; reject a
non-power-of-two `align`; compute the aligned pointer `p` and
`new_pos = (p - start) + size`; reject when
`size > UINT32_MAX - (p - start)` (overflow), when
`arena->pos > UINT32_MAX - (new_pos - arena->pos)` or when
`new_pos > arena->capacity`; otherwise commit `pos = new_pos` and return
`p`. -/
def arena_push_align (arena : arena_t) (size align : Nat) : Nat × arena_t :=
  if arena.start = 0 ∨ align = 0 then (0, arena)
  else if align &&& (align - 1) ≠ 0 then (0, arena)
  else if size > (W - 1) - pushDiff arena align then (0, arena)
  else if arena.pos > (W - 1) - ((pushNewPos arena size align + (W - arena.pos % W)) % W) ∨
      pushNewPos arena size align > arena.capacity then (0, arena)
  else (pushP arena align, ⟨arena.start, pushNewPos arena size align, arena.capacity⟩)

/-- The default push: `arena_push(arena, size) = arena_push_align(arena, size, DEFAULT_ALIGN)`. -/
def arena_push (arena : arena_t) (size : Nat) : Nat × arena_t :=
  arena_push_align arena size DEFAULT_ALIGN

/-- The zeroing push `arena_push_zero(arena, size)`: pushes, then stores a zero byte at
`p[0] .. p[size-1]` unconditionally — also when the push failed and `p` is
`NULL = 0`.  Besides the push result, the list of byte addresses written by
the zero-fill loop is returned (addresses wrap as 32-bit pointers). -/
def arena_push_zero (arena : arena_t) (size : Nat) : (Nat × arena_t) × List Nat :=
  let r := arena_push arena size
  (r, (List.range size).map fun i => (r.1 + i) % W)

/-- The header size `sizeof(struct metadata)` — a single `uint32_t`. -/
def metadata_size : Nat := 4

/-- The quantity `block_size = ALIGN(size, DEFAULT_ALIGN) + ALIGN(sizeof(struct metadata),
DEFAULT_ALIGN)` in `uint32_t` arithmetic. -/
def block_size (size : Nat) : Nat :=
  (ALIGN size DEFAULT_ALIGN + ALIGN metadata_size DEFAULT_ALIGN) % W

/-- The free-list walk of `malloc`, over the free list abstracted as the
list of its nodes `(address, recorded size)` in link order.  First node with
`block_size <= slot->size`: its size shrinks by `block_size`, the result is
`(char *)slot + slot->size + ALIGN(sizeof(struct metadata), DEFAULT_ALIGN)`
(with the already shrunk size), and the node is unlinked exactly when the
shrunk size is `0`.  Returns `none` when no node fits. -/
def carve (bs : Nat) : List (Nat × Nat) → Option (Nat × List (Nat × Nat))
  | [] => none
  | (a, sz) :: rest =>
    if bs ≤ sz then
      some (a + (sz - bs) + ALIGN metadata_size DEFAULT_ALIGN,
            if sz - bs = 0 then rest else (a, sz - bs) :: rest)
    else
      match carve bs rest with
      | some (r, rest2) => some (r, (a, sz) :: rest2)
      | none => none

/-- The allocator state: the free list (in link order, head first), the
heap cursor `heap_mark`, and — as ghost history needed to state invariants —
the blocks handed out by `malloc` and not yet freed, each recorded as
`(block start, block_size)` where the block start is the address of the
metadata padding, `8` bytes before the pointer the caller got. -/
structure HState where
  freelist : List (Nat × Nat)
  live : List (Nat × Nat)
  mark : Nat
deriving DecidableEq, Repr

/-- The no-fit fallback path of `malloc`: request
`block_size + ALIGN_PADDING(heap_mark, DEFAULT_ALIGN)` bytes from `_sbrk`
(cast to `int`), and return
`ALIGN(sbrk result, DEFAULT_ALIGN) + ALIGN(sizeof(struct metadata),
DEFAULT_ALIGN)` — note the source applies this formula even when `_sbrk`
returned `NULL`, yielding the non-null value `8`.  The metadata word
`block_size` is written at `result - 4`.  The ghost `live` list records the
new block `[ALIGN(old cursor, 8), new cursor)` on success, and nothing on
the failed-`_sbrk` path, where no heap block exists. -/
def mallocGrow (heapEnd : Nat) (st : HState) (bs : Nat) : Nat × HState :=
  match _sbrk heapEnd st.mark (toInt32 ((bs + ALIGN_PADDING st.mark DEFAULT_ALIGN) % W)) with
  | (p, mark2) =>
    (ALIGN p DEFAULT_ALIGN + ALIGN metadata_size DEFAULT_ALIGN,
     ⟨st.freelist,
      if p = 0 then st.live else (ALIGN p DEFAULT_ALIGN, bs) :: st.live,
      mark2⟩)

/-- The allocator entry `malloc(uint32_t size)` over an allocator state.  Returns the `char *`
result (`0` = `NULL`) and the new state.  Mirrors the source: `NULL` for
`size == 0`; otherwise the first-fit walk (`carve`) and, when no node fits,
the heap-cursor fallback `mallocGrow`.  On the carve path the ghost `live`
list records the carved block, which starts `ALIGN(sizeof(struct metadata),
DEFAULT_ALIGN) = 8` bytes before the returned pointer. -/
def mallocF (heapEnd : Nat) (st : HState) (size : Nat) : Nat × HState :=
  if size = 0 then (0, st)
  else
    match carve (block_size size) st.freelist with
    | some (r, fl2) =>
        (r, ⟨fl2, (r - ALIGN metadata_size DEFAULT_ALIGN, block_size size) :: st.live,
             st.mark⟩)
    | none => mallocGrow heapEnd st (block_size size)

/-- The deallocator `free(void *ptr)` over an allocator state.  The source builds a free
node at `ptr - ALIGN(sizeof(struct metadata), DEFAULT_ALIGN)`, reads the
recorded `block_size` back from the metadata word, and pushes the node on
the front of the free list.  For a live allocation recorded as
`r = (block start, block_size)` the new node is exactly `r`, since
`block start = ptr - 8` and the metadata holds `block_size`. -/
def freeF (st : HState) (r : Nat × Nat) : HState :=
  ⟨r :: st.freelist, st.live.erase r, st.mark⟩

/-- Allocator states reachable from the initial state (empty free list,
cursor at `&_heap_start`) by `malloc` calls of any size and `free` calls
that respect the C contract for `free` — the argument is a pointer obtained
from `malloc` and not yet freed, i.e. a block of the `live` history. -/
inductive Reachable (heapStart heapEnd : Nat) : HState → Prop
  | init : Reachable heapStart heapEnd ⟨[], [], heapStart⟩
  | malloc_step {st : HState} (s : Nat) : Reachable heapStart heapEnd st →
      Reachable heapStart heapEnd (mallocF heapEnd st s).2
  | free_step {st : HState} (r : Nat × Nat) : Reachable heapStart heapEnd st →
      r ∈ st.live → Reachable heapStart heapEnd (freeF st r)

/-- The byte ranges `[r.1, r.1 + r.2)` and `[s.1, s.1 + s.2)` are disjoint. -/
def RDisj (r s : Nat × Nat) : Prop :=
  r.2 = 0 ∨ s.2 = 0 ∨ r.1 + r.2 ≤ s.1 ∨ s.1 + s.2 ≤ r.1

instance RDisj.decidable (r s : Nat × Nat) : Decidable (RDisj r s) := by
  unfold RDisj
  exact inferInstance

/-- All regions tracked by the state: free-list nodes and live blocks. -/
def regs (st : HState) : List (Nat × Nat) := st.freelist ++ st.live

/-- The allocator invariant: every tracked region lies inside the consumed
part `[heapStart, mark)` of the heap, has 8-byte-aligned address and size,
the regions are pairwise disjoint, and the cursor stays inside the heap. -/
def Inv (heapStart heapEnd : Nat) (st : HState) : Prop :=
  (∀ r ∈ regs st, heapStart ≤ r.1 ∧ r.1 + r.2 ≤ st.mark ∧ r.1 % 8 = 0 ∧ r.2 % 8 = 0) ∧
  (regs st).Pairwise RDisj ∧
  heapStart ≤ st.mark ∧ st.mark ≤ heapEnd

/-! ### Arithmetic helper lemmas, specialised to the default 8-byte alignment -/

theorem W_eq : W = 2 ^ 32 := by norm_num [W]

/-- Masking a 32-bit value with the aligned-down mask `2^32 - 2^k`
(the 32-bit complement of `2^k - 1`) rounds it down to a multiple of `2^k`. -/
theorem and_mask (x k : Nat) (hx : x < 2 ^ 32) (hk : k ≤ 32) :
    x &&& (2 ^ 32 - 2 ^ k) = x - x % 2 ^ k := by
  have hpow : 2 ^ k * 2 ^ (32 - k) = 2 ^ 32 := by
    rw [← pow_add]
    congr 1
    omega
  have hsub : 2 ^ 32 - 2 ^ k = 2 ^ k * (2 ^ (32 - k) - 1) := by
    rw [Nat.mul_sub, Nat.mul_one, hpow]
  have hxd : x - x % 2 ^ k = 2 ^ k * (x / 2 ^ k) := by
    have := Nat.div_add_mod x (2 ^ k)
    omega
  apply Nat.eq_of_testBit_eq
  intro i
  rw [Nat.testBit_and, hsub, Nat.testBit_mul_pow_two, hxd, Nat.testBit_mul_pow_two,
    Nat.testBit_two_pow_sub_one, ← Nat.shiftRight_eq_div_pow, Nat.testBit_shiftRight]
  by_cases hik : k ≤ i
  · have h1 : k + (i - k) = i := by omega
    rw [h1]
    by_cases hi32 : i < 32
    · simp [hik, show i - k < 32 - k by omega]
    · have : x.testBit i = false := by
        apply Nat.testBit_lt_two_pow
        calc x < 2 ^ 32 := hx
          _ ≤ 2 ^ i := Nat.pow_le_pow_right (by norm_num) (by omega)
      simp [this]
  · simp [hik]

/-- The define `ALIGN` at a power-of-two alignment, in arithmetic form. -/
theorem ALIGN_eq_pow (x k : Nat) (hk : k ≤ 32) :
    ALIGN x (2 ^ k) =
      (x + (2 ^ k - 1)) % W - ((x + (2 ^ k - 1)) % W) % 2 ^ k := by
  unfold ALIGN
  rw [W_eq]
  exact and_mask _ k (Nat.mod_lt _ (by norm_num)) hk

/-- The result of `ALIGN` at a power-of-two alignment is a multiple of it. -/
theorem ALIGN_mod (x k : Nat) (hk : k ≤ 32) : ALIGN x (2 ^ k) % 2 ^ k = 0 := by
  rw [ALIGN_eq_pow x k hk]
  have h := Nat.div_add_mod ((x + (2 ^ k - 1)) % W) (2 ^ k)
  have h2 : (x + (2 ^ k - 1)) % W - ((x + (2 ^ k - 1)) % W) % 2 ^ k
      = 2 ^ k * (((x + (2 ^ k - 1)) % W) / 2 ^ k) := by omega
  rw [h2]
  exact Nat.mul_mod_right _ _

/-- The define `ALIGN` stays below `W`. -/
theorem ALIGN_lt_W (x a : Nat) : ALIGN x a < W := by
  unfold ALIGN
  calc ((x + (a - 1)) % W) &&& (W - a) ≤ (x + (a - 1)) % W := Nat.and_le_left
    _ < W := Nat.mod_lt _ (by norm_num [W])

/-- When no 32-bit wrap occurs, `ALIGN` rounds up to within one alignment unit. -/
theorem ALIGN_bounds (x k : Nat) (hk : k ≤ 32) (hx : x + 2 ^ k ≤ W) :
    x ≤ ALIGN x (2 ^ k) ∧ ALIGN x (2 ^ k) < x + 2 ^ k := by
  rw [ALIGN_eq_pow x k hk]
  have hp : 0 < 2 ^ k := Nat.two_pow_pos k
  have h1 : (x + (2 ^ k - 1)) % W = x + (2 ^ k - 1) := by
    apply Nat.mod_eq_of_lt
    have : (W : Nat) = 4294967296 := rfl
    omega
  rw [h1]
  have h2 : (x + (2 ^ k - 1)) % 2 ^ k < 2 ^ k := Nat.mod_lt _ hp
  omega

/-- A power of two passes the C power-of-two test `(align & (align - 1)) == 0`. -/
theorem two_pow_and_sub_one (k : Nat) : 2 ^ k &&& (2 ^ k - 1) = 0 := by
  have h := Nat.and_pow_two_sub_one_eq_mod (2 ^ k) k
  rw [h]
  exact Nat.mod_self _

theorem ALIGN8_mod (x : Nat) : ALIGN x 8 % 8 = 0 := by
  have h := ALIGN_mod x 3 (by norm_num)
  norm_num at h
  exact h

theorem ALIGN8_bounds (x : Nat) (hx : x + 8 ≤ W) : x ≤ ALIGN x 8 ∧ ALIGN x 8 < x + 8 := by
  have h := ALIGN_bounds x 3 (by norm_num) (by norm_num; omega)
  norm_num at h
  exact h

theorem ALIGN_md8 : ALIGN metadata_size DEFAULT_ALIGN = 8 := by decide

/-- Below the wrap-around boundary, `ALIGN_PADDING` is the plain distance up
to the next multiple of 8, and it is at most 7. -/
theorem ALIGN_PADDING8 (x : Nat) (hx : x + 8 ≤ W) :
    ALIGN_PADDING x 8 = ALIGN x 8 - x ∧ ALIGN x 8 - x ≤ 7 := by
  obtain ⟨h1, h2⟩ := ALIGN8_bounds x hx
  unfold ALIGN_PADDING
  simp only [W] at *
  omega

/-- The value `block_size` is a positive multiple of 8 capped at `W - 8` — except that
for the handful of request sizes at the very top of `uint32_t`
(`s ≥ 2^32 - 15`) the 32-bit computation wraps to `0` or `8`. -/
theorem block_size_facts (s : Nat) : block_size s % 8 = 0 ∧ block_size s ≤ W - 8 := by
  have h1 : ALIGN s DEFAULT_ALIGN % 8 = 0 := ALIGN8_mod s
  have h2 : ALIGN s DEFAULT_ALIGN < W := ALIGN_lt_W s DEFAULT_ALIGN
  have h3 : ALIGN metadata_size DEFAULT_ALIGN = 8 := ALIGN_md8
  unfold block_size
  rw [h3]
  simp only [W] at *
  omega

/-! ### Helper lemmas about region disjointness -/

theorem RDisj_symm : ∀ {r s : Nat × Nat}, RDisj r s → RDisj s r := by
  intro r s h
  unfold RDisj at *
  omega

/-- A region contained in `s` is disjoint from everything `s` is disjoint from. -/
theorem RDisj_of_sub {r s z : Nat × Nat} (h1 : s.1 ≤ r.1) (h2 : r.1 + r.2 ≤ s.1 + s.2)
    (h : RDisj s z) : RDisj r z := by
  unfold RDisj at *
  omega

/-! ### Characterisations of the free-list walk `carve` -/

/-- Soundness of `carve`: a successful walk splits the list at the first
fitting node. -/
theorem carve_some {bs r : Nat} {fl fl2 : List (Nat × Nat)}
    (h : carve bs fl = some (r, fl2)) :
    ∃ l₁ a sz l₂, fl = l₁ ++ (a, sz) :: l₂ ∧ (∀ x ∈ l₁, x.2 < bs) ∧ bs ≤ sz ∧
      r = a + (sz - bs) + 8 ∧
      fl2 = l₁ ++ (if sz - bs = 0 then l₂ else (a, sz - bs) :: l₂) := by
  induction fl generalizing r fl2 with
  | nil => simp [carve] at h
  | cons hd tl ih =>
    obtain ⟨a, sz⟩ := hd
    rw [carve] at h
    by_cases hfit : bs ≤ sz
    · rw [if_pos hfit] at h
      rw [ALIGN_md8] at h
      injection h with h2
      injection h2 with h3 h4
      exact ⟨[], a, sz, tl, by simp, by simp, hfit, h3.symm, by rw [List.nil_append, ← h4]⟩
    · rw [if_neg hfit] at h
      cases hc : carve bs tl with
      | none => rw [hc] at h; exact absurd h (by simp)
      | some pr =>
        obtain ⟨r2, rest2⟩ := pr
        rw [hc] at h
        injection h with h2
        injection h2 with h3 h4
        obtain ⟨l₁, a2, sz2, l₂, he2, hlt, hfit2, hr, hfl⟩ := ih hc
        refine ⟨(a, sz) :: l₁, a2, sz2, l₂, by simp [he2], ?_, hfit2, by omega, ?_⟩
        · intro x hx
          rcases List.mem_cons.mp hx with h | h
          · subst h; simpa using hfit
          · exact hlt x h
        · rw [← h4, hfl]
          simp

/-- Completeness of `carve` (the first-fit equation): on a list whose prefix
`l₁` holds only nodes too small and whose next node fits, the walk carves
from that node. -/
theorem carve_spec (bs a sz : Nat) (l₁ l₂ : List (Nat × Nat))
    (hsmall : ∀ x ∈ l₁, x.2 < bs) (hfit : bs ≤ sz) :
    carve bs (l₁ ++ (a, sz) :: l₂) =
      some (a + (sz - bs) + 8,
            l₁ ++ (if sz - bs = 0 then l₂ else (a, sz - bs) :: l₂)) := by
  induction l₁ with
  | nil =>
    rw [List.nil_append, carve, if_pos hfit, ALIGN_md8]
    simp
  | cons hd tl ih =>
    obtain ⟨b, bsz⟩ := hd
    have hb : bsz < bs := by simpa using hsmall (b, bsz) (by simp)
    rw [List.cons_append, carve, if_neg (by omega),
      ih (fun x hx => hsmall x (by simp [hx]))]
    rfl

/-! ### Branch characterisations of `arena_push_align` and `_sbrk` -/

/-- Every `arena_push_align` call either fails with `(NULL, arena unchanged)`
or passes all four guards and commits. -/
theorem arena_push_align_eq (a : arena_t) (size align : Nat) :
    arena_push_align a size align = (0, a) ∨
    (¬(a.start = 0 ∨ align = 0) ∧ align &&& (align - 1) = 0 ∧
     size ≤ (W - 1) - pushDiff a align ∧
     a.pos ≤ (W - 1) - ((pushNewPos a size align + (W - a.pos % W)) % W) ∧
     pushNewPos a size align ≤ a.capacity ∧
     arena_push_align a size align =
       (pushP a align, ⟨a.start, pushNewPos a size align, a.capacity⟩)) := by
  unfold arena_push_align
  split
  · left; rfl
  · rename_i h1
    split
    · left; rfl
    · rename_i h2
      split
      · left; rfl
      · rename_i h3
        split
        · left; rfl
        · rename_i h4
          right
          push_neg at h2 h4
          exact ⟨h1, h2, by omega, by omega, by omega, rfl⟩

/-- Case analysis of `_sbrk`: either it fails, returns `NULL` and keeps the
cursor — exactly when the increment is non-positive, the advance wraps the
32-bit address space, or the new cursor passes `&_heap_end` — or it advances
the cursor by exactly the increment and returns the previous cursor. -/
theorem sbrk_cases (heapEnd mark : Nat) (incr : Int)
    (hm : mark ≤ heapEnd) (hE : heapEnd < W) (hi : incr < 2 ^ 31) :
    (_sbrk heapEnd mark incr = (0, mark) ∧
      (incr ≤ 0 ∨ W ≤ mark + incr.toNat ∨ heapEnd < mark + incr.toNat)) ∨
    (_sbrk heapEnd mark incr = (mark, mark + incr.toNat) ∧
      0 < incr ∧ mark + incr.toNat < W ∧ mark + incr.toNat ≤ heapEnd) := by
  unfold _sbrk
  split
  · rename_i h
    exact Or.inl ⟨rfl, Or.inl h⟩
  · rename_i h
    push_neg at h
    have ht : 1 ≤ incr.toNat := by omega
    have htW : incr.toNat < 2 ^ 31 := by omega
    simp only [W] at *
    split
    · rename_i hwrap
      left
      refine ⟨rfl, Or.inr (Or.inl ?_)⟩
      omega
    · rename_i hnowrap
      push_neg at hnowrap
      have hlt : mark + incr.toNat < 4294967296 := by omega
      rw [Nat.mod_eq_of_lt hlt] at *
      split
      · rename_i hend
        left
        exact ⟨rfl, Or.inr (Or.inr (by omega))⟩
      · rename_i hend
        push_neg at hend
        right
        exact ⟨rfl, by omega, by omega, by omega⟩

/-! ### Preservation of the allocator invariant -/

theorem perm_shuffle1 {α : Type} (nb : α) (l₁ l₂ live : List α) :
    List.Perm ((l₁ ++ l₂) ++ (nb :: live)) (nb :: (l₁ ++ (l₂ ++ live))) := by
  rw [List.append_assoc]
  exact (List.Perm.append_left l₁ List.perm_middle).trans List.perm_middle

theorem perm_shuffle2 {α : Type} (x nb : α) (l₁ l₂ live : List α) :
    List.Perm ((l₁ ++ x :: l₂) ++ (nb :: live)) (x :: nb :: (l₁ ++ (l₂ ++ live))) := by
  have h2 := perm_shuffle1 nb l₁ l₂ live
  rw [List.append_assoc] at h2
  have h1 : (l₁ ++ x :: l₂) ++ (nb :: live) = l₁ ++ x :: (l₂ ++ nb :: live) := by
    rw [List.append_assoc, List.cons_append]
  rw [h1]
  exact List.Perm.trans List.perm_middle (List.Perm.cons x h2)

/-- The first-fit carve path of `malloc` preserves the allocator invariant:
the selected node is split into a (possibly empty) remaining free node and
the carved block, which partition its old extent. -/
theorem inv_carve_branch (hs he : Nat) (st : HState) (bs r : Nat) (fl2 : List (Nat × Nat))
    (hbs8 : bs % 8 = 0)
    (hc : carve bs st.freelist = some (r, fl2))
    (hInv : Inv hs he st) :
    Inv hs he ⟨fl2, (r - 8, bs) :: st.live, st.mark⟩ := by
  unfold Inv at hInv
  obtain ⟨hb, hpw, hm1, hm2⟩ := hInv
  obtain ⟨l₁, a, sz, l₂, hfl, hsmall, hfit, hr, hfl2⟩ := carve_some hc
  have hmem : (a, sz) ∈ regs st := by rw [regs, hfl]; simp
  obtain ⟨hab1, hab2, hab3, hab4⟩ := hb (a, sz) hmem
  have hr8 : r - 8 = a + (sz - bs) := by omega
  have hperm1 : List.Perm (regs st) ((a, sz) :: (l₁ ++ (l₂ ++ st.live))) := by
    rw [regs, hfl, List.append_assoc, List.cons_append]
    exact List.perm_middle
  have hpw2 := (List.Perm.pairwise_iff RDisj_symm hperm1).mp hpw
  rw [List.pairwise_cons] at hpw2
  obtain ⟨hx, hrest⟩ := hpw2
  have hmemold : ∀ x ∈ l₁ ++ (l₂ ++ st.live), x ∈ regs st :=
    fun x hxm => hperm1.mem_iff.mpr (List.mem_cons_of_mem _ hxm)
  by_cases hz : sz - bs = 0
  · rw [hfl2, if_pos hz]
    have hpermN : List.Perm (regs (⟨l₁ ++ l₂, (r - 8, bs) :: st.live, st.mark⟩ : HState))
        ((r - 8, bs) :: (l₁ ++ (l₂ ++ st.live))) := perm_shuffle1 _ _ _ _
    unfold Inv
    refine ⟨?_, ?_, hm1, hm2⟩
    · intro x hxm
      rcases List.mem_cons.mp (hpermN.mem_iff.mp hxm) with hh | hh
      · subst hh
        refine ⟨by omega, ?_, by omega, hbs8⟩
        show r - 8 + bs ≤ st.mark
        omega
      · obtain ⟨g1, g2, g3, g4⟩ := hb x (hmemold x hh)
        exact ⟨g1, g2, g3, g4⟩
    · refine (List.Perm.pairwise_iff RDisj_symm hpermN).mpr ?_
      rw [List.pairwise_cons]
      refine ⟨fun z hzm => ?_, hrest⟩
      refine RDisj_of_sub ?_ ?_ (hx z hzm)
      · show a ≤ r - 8
        omega
      · show r - 8 + bs ≤ a + sz
        omega
  · rw [hfl2, if_neg hz]
    have hpermN : List.Perm
        (regs (⟨l₁ ++ (a, sz - bs) :: l₂, (r - 8, bs) :: st.live, st.mark⟩ : HState))
        ((a, sz - bs) :: (r - 8, bs) :: (l₁ ++ (l₂ ++ st.live))) := perm_shuffle2 _ _ _ _ _
    unfold Inv
    refine ⟨?_, ?_, hm1, hm2⟩
    · intro x hxm
      rcases List.mem_cons.mp (hpermN.mem_iff.mp hxm) with hh | hh
      · subst hh
        refine ⟨hab1, ?_, hab3, by omega⟩
        show a + (sz - bs) ≤ st.mark
        omega
      · rcases List.mem_cons.mp hh with hh2 | hh2
        · subst hh2
          refine ⟨by omega, ?_, by omega, hbs8⟩
          show r - 8 + bs ≤ st.mark
          omega
        · obtain ⟨g1, g2, g3, g4⟩ := hb x (hmemold x hh2)
          exact ⟨g1, g2, g3, g4⟩
    · refine (List.Perm.pairwise_iff RDisj_symm hpermN).mpr ?_
      rw [List.pairwise_cons, List.pairwise_cons]
      refine ⟨fun z hzm => ?_, fun z hzm => ?_, hrest⟩
      · rcases List.mem_cons.mp hzm with hh | hh
        · subst hh
          unfold RDisj
          refine Or.inr (Or.inr (Or.inl ?_))
          show a + (sz - bs) ≤ r - 8
          omega
        · refine RDisj_of_sub ?_ ?_ (hx z hh)
          · show a ≤ a
            omega
          · show a + (sz - bs) ≤ a + sz
            omega
      · refine RDisj_of_sub ?_ ?_ (hx z hzm)
        · show a ≤ r - 8
          omega
        · show r - 8 + bs ≤ a + sz
          omega

/-- The heap-growth path of `malloc` preserves the allocator invariant: on
`_sbrk` success the new block `[ALIGN(mark, 8), new mark)` lies beyond every
tracked region, and on failure the state is unchanged. -/
theorem inv_grow (hs he : Nat) (st : HState) (bs : Nat)
    (h0 : 0 < hs) (hW : he + 8 ≤ W) (hbs8 : bs % 8 = 0) (hbsle : bs ≤ W - 8)
    (hInv : Inv hs he st) :
    Inv hs he (mallocGrow he st bs).2 := by
  unfold Inv at hInv
  obtain ⟨hb, hpw, hm1, hm2⟩ := hInv
  have hmark8 : st.mark + 8 ≤ W := by omega
  obtain ⟨hpad, hpad7⟩ := ALIGN_PADDING8 st.mark hmark8
  obtain ⟨hal1, hal2⟩ := ALIGN8_bounds st.mark hmark8
  have hreq : (bs + ALIGN_PADDING st.mark DEFAULT_ALIGN) % W
      = bs + (ALIGN st.mark 8 - st.mark) := by
    show (bs + ALIGN_PADDING st.mark 8) % W = _
    rw [hpad]
    exact Nat.mod_eq_of_lt (by omega)
  have hi32 : toInt32 ((bs + ALIGN_PADDING st.mark DEFAULT_ALIGN) % W) < 2 ^ 31 := by
    rw [hreq]
    unfold toInt32
    have h31 : (2 : Int) ^ 31 = 2147483648 := by norm_num
    split
    · rename_i hsmall
      rw [h31]
      have : (2 : Nat) ^ 31 = 2147483648 := by norm_num
      omega
    · rw [h31]
      have hWI : ((W : Nat) : Int) = 4294967296 := by norm_num [W]
      omega
  have hcases := sbrk_cases he st.mark
    (toInt32 ((bs + ALIGN_PADDING st.mark DEFAULT_ALIGN) % W)) hm2 (by omega) hi32
  unfold mallocGrow
  rcases hcases with ⟨heq, _⟩ | ⟨heq, hpos, hlt, hle⟩
  · rw [heq]
    show Inv hs he st
    exact ⟨hb, hpw, hm1, hm2⟩
  · rw [heq]
    have htn : (toInt32 ((bs + ALIGN_PADDING st.mark DEFAULT_ALIGN) % W)).toNat
        = bs + (ALIGN st.mark 8 - st.mark) := by
      rw [hreq] at hpos ⊢
      unfold toInt32 at hpos ⊢
      split at hpos
      · rename_i hsmall
        rw [if_pos hsmall]
        exact Int.toNat_natCast _
      · exfalso
        have hnW : bs + (ALIGN st.mark 8 - st.mark) < W := by omega
        have hWI : ((W : Nat) : Int) = 4294967296 := by norm_num [W]
        have hnW2 : (W : Nat) = 4294967296 := by norm_num [W]
        omega
    have hmark0 : st.mark ≠ 0 := by omega
    show Inv hs he ⟨st.freelist,
      if st.mark = 0 then st.live
      else (ALIGN st.mark DEFAULT_ALIGN, bs) :: st.live,
      st.mark + (toInt32 ((bs + ALIGN_PADDING st.mark DEFAULT_ALIGN) % W)).toNat⟩
    rw [if_neg hmark0, htn]
    rw [htn] at hlt hle
    have hpermN : List.Perm
        (regs (⟨st.freelist, (ALIGN st.mark DEFAULT_ALIGN, bs) :: st.live,
          st.mark + (bs + (ALIGN st.mark 8 - st.mark))⟩ : HState))
        ((ALIGN st.mark DEFAULT_ALIGN, bs) :: regs st) := by
      show List.Perm (st.freelist ++ ((ALIGN st.mark DEFAULT_ALIGN, bs) :: st.live))
          ((ALIGN st.mark DEFAULT_ALIGN, bs) :: (st.freelist ++ st.live))
      exact List.perm_middle
    unfold Inv
    refine ⟨?_, ?_, ?_, ?_⟩
    · intro x hxm
      rcases List.mem_cons.mp (hpermN.mem_iff.mp hxm) with hh | hh
      · subst hh
        refine ⟨?_, ?_, ?_, hbs8⟩
        · show hs ≤ ALIGN st.mark 8
          omega
        · show ALIGN st.mark 8 + bs ≤ st.mark + (bs + (ALIGN st.mark 8 - st.mark))
          omega
        · show ALIGN st.mark 8 % 8 = 0
          exact ALIGN8_mod st.mark
      · obtain ⟨g1, g2, g3, g4⟩ := hb x hh
        refine ⟨g1, ?_, g3, g4⟩
        show x.1 + x.2 ≤ st.mark + (bs + (ALIGN st.mark 8 - st.mark))
        omega
    · refine (List.Perm.pairwise_iff RDisj_symm hpermN).mpr ?_
      rw [List.pairwise_cons]
      refine ⟨fun z hzm => ?_, hpw⟩
      obtain ⟨g1, g2, g3, g4⟩ := hb z hzm
      unfold RDisj
      refine Or.inr (Or.inr (Or.inr ?_))
      show z.1 + z.2 ≤ ALIGN st.mark 8
      omega
    · show hs ≤ st.mark + (bs + (ALIGN st.mark 8 - st.mark))
      omega
    · show st.mark + (bs + (ALIGN st.mark 8 - st.mark)) ≤ he
      omega

/-- The operation `malloc` preserves the allocator invariant. -/
theorem inv_malloc (hs he : Nat) (st : HState) (s : Nat)
    (h0 : 0 < hs) (hW : he + 8 ≤ W) (hInv : Inv hs he st) :
    Inv hs he (mallocF he st s).2 := by
  by_cases hsz : s = 0
  · rw [mallocF, if_pos hsz]
    exact hInv
  · rw [mallocF, if_neg hsz]
    obtain ⟨hbs8, hbsle⟩ := block_size_facts s
    cases hc : carve (block_size s) st.freelist with
    | some pr =>
      obtain ⟨r, fl2⟩ := pr
      show Inv hs he ⟨fl2, (r - ALIGN metadata_size DEFAULT_ALIGN, block_size s) :: st.live,
        st.mark⟩
      rw [ALIGN_md8]
      exact inv_carve_branch hs he st (block_size s) r fl2 hbs8 hc hInv
    | none =>
      show Inv hs he (mallocGrow he st (block_size s)).2
      exact inv_grow hs he st (block_size s) h0 hW hbs8 hbsle hInv

/-- A version of `List.perm_cons_erase` for any lawful `BEq` instance. -/
theorem perm_cons_erase_beq {α : Type} [BEq α] [LawfulBEq α] {r : α} {l : List α}
    (h : r ∈ l) : List.Perm l (r :: l.erase r) := by
  induction l with
  | nil => cases h
  | cons hd tl ih =>
    by_cases he : hd = r
    · subst he
      rw [List.erase_cons_head]
    · have hmem : r ∈ tl := by
        rcases List.mem_cons.mp h with hh | hh
        · exact absurd hh.symm he
        · exact hh
      rw [List.erase_cons, if_neg (by simp [he])]
      exact (List.Perm.cons hd (ih hmem)).trans (List.Perm.swap r hd _)

/-- The operation `free` preserves the allocator invariant: the freed block moves, with
unchanged extent, from the live blocks to the front of the free list. -/
theorem inv_free (hs he : Nat) (st : HState) (r : Nat × Nat)
    (hmem : r ∈ st.live) (hInv : Inv hs he st) : Inv hs he (freeF st r) := by
  unfold Inv at hInv
  obtain ⟨hb, hpw, hm1, hm2⟩ := hInv
  have hperm : List.Perm (regs (freeF st r)) (regs st) := by
    show List.Perm ((r :: st.freelist) ++ st.live.erase r) (st.freelist ++ st.live)
    have h1 : (r :: st.freelist) ++ st.live.erase r
        = r :: (st.freelist ++ st.live.erase r) := rfl
    rw [h1]
    exact List.Perm.trans List.perm_middle.symm
      (List.Perm.append_left st.freelist (perm_cons_erase_beq hmem).symm)
  unfold Inv
  refine ⟨?_, ?_, hm1, hm2⟩
  · intro x hxm
    exact hb x (hperm.mem_iff.mp hxm)
  · exact (List.Perm.pairwise_iff RDisj_symm hperm).mpr hpw

/-- Every reachable allocator state satisfies the invariant. -/
theorem reachable_inv (hs he : Nat) (st : HState)
    (h0 : 0 < hs) (hse : hs ≤ he) (hW : he + 8 ≤ W)
    (h : Reachable hs he st) : Inv hs he st := by
  induction h with
  | init =>
    unfold Inv
    refine ⟨?_, ?_, le_refl _, hse⟩
    · intro x hxm
      simp [regs] at hxm
    · show List.Pairwise RDisj ([] ++ [])
      simp
  | malloc_step s hst ih => exact inv_malloc hs he _ s h0 hW ih
  | free_step r hst hmem ih => exact inv_free hs he _ r hmem ih

/-- A helper equation: the pointer produced by the heap-growth path of
`malloc` is `ALIGN(sbrk result, 8) + 8`, also when `_sbrk` failed. -/
theorem mallocGrow_fst (heapEnd : Nat) (st : HState) (bs : Nat) :
    (mallocGrow heapEnd st bs).1
      = ALIGN (_sbrk heapEnd st.mark
            (toInt32 ((bs + ALIGN_PADDING st.mark DEFAULT_ALIGN) % W))).1 DEFAULT_ALIGN
        + ALIGN metadata_size DEFAULT_ALIGN := by
  unfold mallocGrow
  cases h : _sbrk heapEnd st.mark
      (toInt32 ((bs + ALIGN_PADDING st.mark DEFAULT_ALIGN) % W)) with
  | mk p m => rfl

/-! ### The claims -/

/-- C1: for every free-list state and every request size `s > 0` with
`block_size = ALIGN(s, 8) + ALIGN(sizeof(struct metadata), 8)`, `malloc`
selects the FIRST node in list-traversal order whose recorded size is at
least `block_size` (the earlier nodes, `l₁`, are all smaller), carves the
allocation from the END of that node — the result is
`node + (size - block_size) + 8`, so the node header stays at its address —
decreases the recorded size by exactly `block_size`, unlinks the node
exactly when the remaining size is zero, leaves the earlier nodes `l₁`
unchanged, and does not touch the heap cursor. -/
theorem malloc_first_fit (heapEnd : Nat) (st : HState) (s a sz : Nat)
    (l₁ l₂ : List (Nat × Nat)) (hs : 0 < s)
    (hfl : st.freelist = l₁ ++ (a, sz) :: l₂)
    (hsmall : ∀ x ∈ l₁, x.2 < block_size s)
    (hfit : block_size s ≤ sz) :
    (mallocF heapEnd st s).1 = a + (sz - block_size s) + 8 ∧
    (mallocF heapEnd st s).2.freelist =
      l₁ ++ (if sz - block_size s = 0 then l₂ else (a, sz - block_size s) :: l₂) ∧
    (mallocF heapEnd st s).2.mark = st.mark := by
  rw [mallocF, if_neg (by omega)]
  rw [hfl, carve_spec (block_size s) a sz l₁ l₂ hsmall hfit]
  exact ⟨rfl, rfl, rfl⟩

theorem malloc_first_fit_witness :
    (mallocF 1000 (⟨[(0, 8), (16, 32)], [], 100⟩ : HState) 1).1
        = 16 + (32 - block_size 1) + 8 ∧
    (mallocF 1000 (⟨[(0, 8), (16, 32)], [], 100⟩ : HState) 1).2.freelist
        = [(0, 8)] ++ (if 32 - block_size 1 = 0 then []
            else (16, 32 - block_size 1) :: []) ∧
    (mallocF 1000 (⟨[(0, 8), (16, 32)], [], 100⟩ : HState) 1).2.mark = 100 :=
  malloc_first_fit 1000 ⟨[(0, 8), (16, 32)], [], 100⟩ 1 16 32 [(0, 8)] []
    (by norm_num) rfl (by decide) (by decide)

/-- C2 counterexample: on the arena `{start := 8, pos := 8, capacity := 8}`
(a legitimate state: an arena of capacity 8 after one full 8-byte push) the
call `arena_push_align(arena, 0, 8)` SUCCEEDS and returns
`start + capacity = 16`, an address outside `[start, start + capacity)` —
so the claim fails for `size = 0`. -/
theorem arena_push_align_size_zero_escape :
    (arena_push_align ⟨8, 8, 8⟩ 0 8).1 = 16 ∧ ((16 : Nat) ≠ 0) ∧ ¬(16 < 8 + 8) := by
  decide

/-- C2 (amended): for every arena with non-null start whose region does not
wrap the 32-bit address space (`start + capacity ≤ 2^32`, the only states C
pointer arithmetic allows), every size at least 1, and every power-of-two
align, if `arena_push_align` succeeds (returns a non-null pointer) then the
returned address is divisible by `align`, the updated `pos` satisfies
`0 ≤ pos ≤ capacity`, and the returned address lies within
`[start, start + capacity)`. -/
theorem arena_push_align_contract (a : arena_t) (size align k : Nat)
    (h0 : a.start ≠ 0) (hsW : a.start < W) (hcap : a.start + a.capacity ≤ W)
    (halign : align = 2 ^ k) (hk : k ≤ 7) (hsize : 1 ≤ size)
    (hres : (arena_push_align a size align).1 ≠ 0) :
    (arena_push_align a size align).1 % align = 0 ∧
    (arena_push_align a size align).2.pos ≤ a.capacity ∧
    a.start ≤ (arena_push_align a size align).1 ∧
    (arena_push_align a size align).1 < a.start + a.capacity := by
  rcases arena_push_align_eq a size align with heq | ⟨hg1, hg2, hg3, hg4, hg5, heq⟩
  · rw [heq] at hres
    exact absurd rfl hres
  · rw [heq] at hres ⊢
    have hDlt : pushDiff a align < W := Nat.mod_lt _ (by norm_num [W])
    have hnp : pushNewPos a size align = pushDiff a align + size := by
      unfold pushNewPos
      exact Nat.mod_eq_of_lt (by omega)
    have hPlt : pushP a align < W := ALIGN_lt_W _ _
    have hPD : (a.start + pushDiff a align) % W = pushP a align := by
      unfold pushDiff
      rw [Nat.mod_eq_of_lt hsW]
      simp only [W] at *
      omega
    have hP_eq : pushP a align = a.start + pushDiff a align := by
      rw [← hPD]
      exact Nat.mod_eq_of_lt (by omega)
    refine ⟨?_, ?_, ?_, ?_⟩
    · show pushP a align % align = 0
      subst halign
      exact ALIGN_mod _ k (by omega)
    · show pushNewPos a size align ≤ a.capacity
      exact hg5
    · show a.start ≤ pushP a align
      omega
    · show pushP a align < a.start + a.capacity
      omega

theorem arena_push_align_contract_witness :
    (arena_push_align ⟨8, 3, 64⟩ 10 8).1 % 8 = 0 ∧
    (arena_push_align ⟨8, 3, 64⟩ 10 8).2.pos ≤ 64 ∧
    8 ≤ (arena_push_align ⟨8, 3, 64⟩ 10 8).1 ∧
    (arena_push_align ⟨8, 3, 64⟩ 10 8).1 < 8 + 64 :=
  arena_push_align_contract ⟨8, 3, 64⟩ 10 8 3 (by decide) (by decide) (by decide)
    (by norm_num) (by norm_num) (by norm_num) (by decide)

/-- C3: `_sbrk(n)` fails — returns `NULL` and leaves `heap_mark` unchanged —
exactly when the increment is not strictly positive, or advancing the cursor
by `n` would wrap the 32-bit address space, or the new cursor would exceed
the heap boundary `&_heap_end`; otherwise it advances `heap_mark` by exactly
`n` and returns the pre-advance cursor. -/
theorem sbrk_spec (heapEnd heap_mark : Nat) (incr : Int)
    (hm : heap_mark ≤ heapEnd) (hE : heapEnd < W) (hi : incr < 2 ^ 31) :
    ((incr ≤ 0 ∨ W ≤ heap_mark + incr.toNat ∨ heapEnd < heap_mark + incr.toNat) →
      _sbrk heapEnd heap_mark incr = (0, heap_mark)) ∧
    ((0 < incr ∧ heap_mark + incr.toNat < W ∧ heap_mark + incr.toNat ≤ heapEnd) →
      _sbrk heapEnd heap_mark incr = (heap_mark, heap_mark + incr.toNat)) := by
  rcases sbrk_cases heapEnd heap_mark incr hm hE hi with ⟨heq, hcond⟩ | ⟨heq, h1, h2, h3⟩
  · refine ⟨fun _ => heq, fun hgood => ?_⟩
    exfalso
    rcases hcond with hcond | hcond | hcond <;> omega
  · refine ⟨fun hbad => ?_, fun _ => heq⟩
    exfalso
    rcases hbad with hbad | hbad | hbad <;> omega

theorem sbrk_spec_witness : _sbrk 100 16 8 = (16, 24) := by
  have h := (sbrk_spec 100 16 8 (by norm_num) (by norm_num [W]) (by norm_num)).2
    (by refine ⟨by norm_num, ?_, ?_⟩ <;> decide)
  rw [h]
  decide

/-- C4 (code bug): with 8 bytes of remaining heap (`heap_mark = 16`,
`heap_end = 24`), an empty free list and request size 1 (`block_size = 16`),
the `_sbrk` fallback fails, yet `malloc` does NOT return `NULL`: it applies
`ALIGN(NULL, 8) + 8` to the failed result and returns the bogus non-null
pointer `8` (and stores the metadata word through it at address 4). -/
theorem malloc_exhaustion_returns_nonnull :
    (mallocF 24 (⟨[], [], 16⟩ : HState) 1).1 = 8 ∧ ((8 : Nat) ≠ 0) ∧
    (mallocF 24 (⟨[], [], 16⟩ : HState) 1).2 = ⟨[], [], 16⟩ := by
  decide

/-- C5 (code bug): on an exhausted arena (`start = 8`, `pos = capacity = 8`)
`arena_push_zero(arena, 8)` gets `NULL` back from the failed push, yet its
zero-fill loop runs anyway and stores zero bytes through the null pointer at
addresses `0 .. 7` before handing the null result to the caller. -/
theorem arena_push_zero_writes_through_null :
    (arena_push_zero ⟨8, 8, 8⟩ 8).1.1 = 0 ∧
    (arena_push_zero ⟨8, 8, 8⟩ 8).2 = [0, 1, 2, 3, 4, 5, 6, 7] := by
  decide

/-- C6: whenever `arena_push_align` cannot satisfy the request — the aligned
allocation would exceed the arena capacity (`new_pos > capacity`) or the
size arithmetic would overflow 32 bits
(`size > UINT32_MAX - (p - start)`) — the call returns the invalid pointer
`NULL` and leaves the arena, in particular `pos`, unchanged. -/
theorem arena_push_align_all_or_nothing (a : arena_t) (size align : Nat)
    (h : a.capacity < pushNewPos a size align ∨ (W - 1) - pushDiff a align < size) :
    (arena_push_align a size align).1 = 0 ∧ (arena_push_align a size align).2 = a := by
  rcases arena_push_align_eq a size align with heq | ⟨hg1, hg2, hg3, hg4, hg5, heq⟩
  · rw [heq]
    exact ⟨rfl, rfl⟩
  · exfalso
    rcases h with h | h <;> omega

theorem arena_push_align_all_or_nothing_witness :
    (arena_push_align ⟨8, 0, 8⟩ 16 8).1 = 0 ∧
    (arena_push_align ⟨8, 0, 8⟩ 16 8).2 = ⟨8, 0, 8⟩ :=
  arena_push_align_all_or_nothing ⟨8, 0, 8⟩ 16 8 (by decide)

/-- C7 counterexample: starting from a fresh heap at 16, `malloc(1)` returns
the pointer 24 for the block `[16, 32)` (`block_size = 16`: 8 bytes of
header padding at `[16, 24)`, 8 usable bytes at `[24, 32)`), and `free(24)`
creates a free node at address 16 whose recorded size is 16 — the FULL block
extent including the 8 bytes of the node header footprint.  The bytes that
follow the node header footprint within the block are only
`32 - (16 + 8) = 8`, so the recorded size does count the header, contrary to
the claim. -/
theorem freelist_size_includes_header :
    (mallocF 1000 (⟨[], [], 16⟩ : HState) 1).1 = 24 ∧
    (mallocF 1000 (⟨[], [], 16⟩ : HState) 1).2 = ⟨[], [(16, 16)], 32⟩ ∧
    freeF ⟨[], [(16, 16)], 32⟩ (16, 16) = ⟨[(16, 16)], [], 32⟩ ∧
    ¬((16 : Nat) = 32 - (16 + 8)) := by
  decide

/-- C7 (amended): the size recorded at each free-list node describes the
block extent starting at the address of the node itself — header footprint included,
exactly the `block_size` stored in the metadata word — and under that
reading, in every state reachable by `malloc`/`free` calls the free-list
nodes are pairwise disjoint, non-overlapping regions of the consumed heap
`[heapStart, heap_mark)`. -/
theorem freelist_nodes_disjoint (hs he : Nat) (st : HState)
    (h0 : 0 < hs) (hse : hs ≤ he) (hW : he + 8 ≤ W)
    (h : Reachable hs he st) :
    st.freelist.Pairwise RDisj ∧
    ∀ r ∈ st.freelist, hs ≤ r.1 ∧ r.1 + r.2 ≤ st.mark := by
  have hInv := reachable_inv hs he st h0 hse hW h
  unfold Inv at hInv
  obtain ⟨hb, hpw, _, _⟩ := hInv
  constructor
  · exact List.Pairwise.sublist (List.sublist_append_left st.freelist st.live) hpw
  · intro r hr
    obtain ⟨g1, g2, _, _⟩ := hb r (List.mem_append_left _ hr)
    exact ⟨g1, g2⟩

theorem freelist_nodes_disjoint_witness :
    (⟨[(16, 16)], [], 32⟩ : HState).freelist.Pairwise RDisj ∧
    ∀ r ∈ (⟨[(16, 16)], [], 32⟩ : HState).freelist, 16 ≤ r.1 ∧ r.1 + r.2 ≤ 32 := by
  have h1 : Reachable 16 1000 ⟨[], [], 16⟩ := Reachable.init
  have h2 := Reachable.malloc_step 1 h1
  have e2 : (mallocF 1000 (⟨[], [], 16⟩ : HState) 1).2 = ⟨[], [(16, 16)], 32⟩ := by decide
  rw [e2] at h2
  have h3 := Reachable.free_step (16, 16) h2 (by decide)
  have e3 : freeF (⟨[], [(16, 16)], 32⟩ : HState) (16, 16) = ⟨[(16, 16)], [], 32⟩ := by
    decide
  rw [e3] at h3
  exact freelist_nodes_disjoint 16 1000 ⟨[(16, 16)], [], 32⟩ (by norm_num) (by norm_num)
    (by norm_num [W]) h3

/-- C8 counterexample: `arena_push_align(arena, 0, 8)` on the freshly
initialised arena `{start := 8, pos := 0, capacity := 8}` does NOT fail: it
returns the non-null pointer 8 (the current position) — the arena allocator
has no zero-size rejection. -/
theorem arena_push_align_zero_size_succeeds :
    (arena_push_align ⟨8, 0, 8⟩ 0 8).1 = 8 ∧ ((8 : Nat) ≠ 0) := by
  decide

/-- C8 (amended): every zero-size `malloc` request is rejected with the
invalid return: `malloc(0)` always returns `NULL` and changes nothing.
(`arena_push_align` with size 0, by contrast, is not rejected — see the
counterexample.) -/
theorem malloc_zero_returns_null (heapEnd : Nat) (st : HState) :
    mallocF heapEnd st 0 = (0, st) := by
  rw [mallocF, if_pos rfl]

/-- C9: in every reachable allocator state, every pointer returned by
`malloc` is 8-byte aligned — the first-fit carve, the aligned heap-cursor
fallback, and even the null/bogus returns are multiples of 8 — and every
free-list node address and recorded size is a multiple of 8. -/
theorem malloc_result_aligned (hs he : Nat) (st : HState) (s : Nat)
    (h0 : 0 < hs) (hse : hs ≤ he) (hW : he + 8 ≤ W)
    (h : Reachable hs he st) :
    (mallocF he st s).1 % 8 = 0 ∧
    ∀ r ∈ st.freelist, r.1 % 8 = 0 ∧ r.2 % 8 = 0 := by
  have hInv := reachable_inv hs he st h0 hse hW h
  unfold Inv at hInv
  obtain ⟨hb, hpw, hm1, hm2⟩ := hInv
  constructor
  · by_cases hsz : s = 0
    · rw [mallocF, if_pos hsz]
      rfl
    · rw [mallocF, if_neg hsz]
      obtain ⟨hbs8, _⟩ := block_size_facts s
      cases hc : carve (block_size s) st.freelist with
      | some pr =>
        obtain ⟨r, fl2⟩ := pr
        show r % 8 = 0
        obtain ⟨l₁, a, sz, l₂, hfl, hsmall, hfit, hr, hfl2⟩ := carve_some hc
        have hmem : (a, sz) ∈ regs st := by
          rw [regs, hfl]
          simp
        obtain ⟨_, _, ha8, hsz8⟩ := hb (a, sz) hmem
        omega
      | none =>
        show (mallocGrow he st (block_size s)).1 % 8 = 0
        rw [mallocGrow_fst, ALIGN_md8]
        have hA : ALIGN (_sbrk he st.mark
            (toInt32 ((block_size s + ALIGN_PADDING st.mark DEFAULT_ALIGN) % W))).1
            DEFAULT_ALIGN % 8 = 0 := ALIGN8_mod _
        omega
  · intro r hr
    obtain ⟨_, _, g3, g4⟩ := hb r (List.mem_append_left _ hr)
    exact ⟨g3, g4⟩

theorem malloc_result_aligned_witness :
    (mallocF 1000 (⟨[(16, 16)], [], 32⟩ : HState) 5).1 % 8 = 0 ∧
    ∀ r ∈ (⟨[(16, 16)], [], 32⟩ : HState).freelist, r.1 % 8 = 0 ∧ r.2 % 8 = 0 := by
  have h1 : Reachable 16 1000 ⟨[], [], 16⟩ := Reachable.init
  have h2 := Reachable.malloc_step 1 h1
  have e2 : (mallocF 1000 (⟨[], [], 16⟩ : HState) 1).2 = ⟨[], [(16, 16)], 32⟩ := by decide
  rw [e2] at h2
  have h3 := Reachable.free_step (16, 16) h2 (by decide)
  have e3 : freeF (⟨[], [(16, 16)], 32⟩ : HState) (16, 16) = ⟨[(16, 16)], [], 32⟩ := by
    decide
  rw [e3] at h3
  exact malloc_result_aligned 16 1000 ⟨[(16, 16)], [], 32⟩ 5 (by norm_num) (by norm_num)
    (by norm_num [W]) h3

/-- C10: `arena_alloc(size)` yields an arena whose `start` is the null
marker for `size = 0` and for every `size ≥ 2^31` — the unsigned byte count
is cast to a signed 32-bit increment for `_sbrk`, which rejects all
non-positive increments — so (besides genuine heap exhaustion) only
requested sizes in `1 .. 2^31 - 1` can produce a usable arena. -/
theorem arena_alloc_size_range (heapEnd heap_mark size : Nat) (hszW : size < W) :
    ((size = 0 ∨ 2 ^ 31 ≤ size) → (arena_alloc heapEnd heap_mark size).1.start = 0) ∧
    ((arena_alloc heapEnd heap_mark size).1.start ≠ 0 → 1 ≤ size ∧ size < 2 ^ 31) := by
  unfold arena_alloc toInt32
  by_cases h31 : size < 2 ^ 31
  · rw [if_pos h31]
    by_cases hz : size = 0
    · subst hz
      constructor
      · intro _
        show (_sbrk heapEnd heap_mark 0).1 = 0
        rw [_sbrk, if_pos (by norm_num)]
      · intro hne
        exfalso
        apply hne
        show (_sbrk heapEnd heap_mark 0).1 = 0
        rw [_sbrk, if_pos (by norm_num)]
    · constructor
      · intro hcond
        exfalso
        rcases hcond with hcond | hcond
        · exact hz hcond
        · omega
      · intro _
        exact ⟨by omega, h31⟩
  · rw [if_neg h31]
    have hneg : (size : Int) - (W : Int) ≤ 0 := by omega
    constructor
    · intro _
      show (_sbrk heapEnd heap_mark ((size : Int) - (W : Int))).1 = 0
      rw [_sbrk, if_pos hneg]
    · intro hne
      exfalso
      apply hne
      show (_sbrk heapEnd heap_mark ((size : Int) - (W : Int))).1 = 0
      rw [_sbrk, if_pos hneg]

theorem arena_alloc_size_range_witness :
    (arena_alloc 1000 16 0).1.start = 0 ∧ (arena_alloc 1000 16 2147483648).1.start = 0 :=
  ⟨(arena_alloc_size_range 1000 16 0 (by norm_num [W])).1 (Or.inl rfl),
   (arena_alloc_size_range 1000 16 2147483648 (by norm_num [W])).1 (Or.inr (by norm_num))⟩

end Frost
